import Mathlib

/-!
Verification development for the EcoScan ESG preprocessing pipeline
(`src/preprocessing.py`, `src/extraction.py`).

Python strings are embedded as `List Char` (`Str`); floating-point
ratios are embedded as exact rationals (`ℚ`), with Python `round`
embedded as round-half-to-even at the requested number of decimals.
External collaborators (the NLTK word tokenizer and stopword corpus,
the sklearn TF-IDF numeric weights, the pdfplumber PDF decoder) are
modelled at the contract level stated by the specification; everything
else is translated directly from the source.
-/

/-- Python strings are modelled as lists of characters. -/
abbrev Str := List Char

/-- Shorthand to turn a Lean string literal into the `List Char` model. -/
def lit (s : String) : Str := s.toList

/-- The six ASCII characters Python treats as whitespace for `str.strip`,
`str.split()` and the regex class `\s`. -/
def isPyWs (c : Char) : Bool :=
  c = ' ' || c = '\t' || c = '\n' || c = '\r' || c = '\x0b' || c = '\x0c'

/-- Python `str.strip()` (whitespace trim at both ends). -/
def pyStrip (s : Str) : Str :=
  ((s.dropWhile isPyWs).reverse.dropWhile isPyWs).reverse

/-- Python `str.lower()` (ASCII case folding suffices for this corpus). -/
def lowerStr (s : Str) : Str := s.map Char.toLower

/-- Python `s.startswith(p)` on the list model. -/
def startsWithL (p s : Str) : Bool := decide (s.take p.length = p)

/-- Python `s.endswith(p)` on the list model. -/
def endsWithL (p s : Str) : Bool :=
  decide (p.length ≤ s.length) && decide (s.drop (s.length - p.length) = p)

/-- Python substring test `sub in s` (used for the literal keyword regexes). -/
def hasSub (sub : Str) : Str → Bool
  | [] => decide (sub = [])
  | c :: rest => startsWithL sub (c :: rest) || hasSub sub rest

/-- Python `s.split(sep)` for a single-character separator. -/
def consHead (c : Char) : List Str → List Str
  | [] => [[c]]
  | s :: ss => (c :: s) :: ss

def splitChar (sep : Char) : Str → List Str
  | [] => [[]]
  | c :: rest => if c = sep then [] :: splitChar sep rest else consHead c (splitChar sep rest)

/-- Python `s.split("\n\n")`: non-overlapping left-to-right scan for the
two-character paragraph sentinel. -/
def splitNN : Str → List Str
  | [] => [[]]
  | [c] => [[c]]
  | c :: d :: rest =>
    if c = '\n' ∧ d = '\n' then [] :: splitNN rest
    else consHead c (splitNN (d :: rest))

/-- Python `"\n\n".join(paragraphs)`. -/
def intercalateNN : List Str → Str
  | [] => []
  | [s] => s
  | s :: t :: ss => s ++ '\n' :: '\n' :: intercalateNN (t :: ss)

/-- Python `" ".join(words)`. -/
def joinSp : List Str → Str
  | [] => []
  | [s] => s
  | s :: t :: ss => s ++ ' ' :: joinSp (t :: ss)

/-- Python `s.split()` with no argument: whitespace runs separate words,
no empty words are produced. -/
def splitWs : Str → List Str
  | [] => []
  | [c] => if isPyWs c then [] else [[c]]
  | c :: d :: rest =>
    if isPyWs c then splitWs (d :: rest)
    else if isPyWs d then [c] :: splitWs (d :: rest)
    else consHead c (splitWs (d :: rest))

/-- Modelled from the spec: the NLTK word tokenizer (`nltk.word_tokenize`,
an external library) is specified in §4.1 only as a deterministic word
tokenizer "splitting on whitespace/punctuation boundaries".  The model
splits on whitespace and then separates each maximal alphanumeric run
and each single punctuation character into its own token. -/
def splitChunk : Str → List Str
  | [] => []
  | [c] => [[c]]
  | c :: d :: rest =>
    if c.isAlphanum then
      if d.isAlphanum then consHead c (splitChunk (d :: rest))
      else [c] :: splitChunk (d :: rest)
    else [c] :: splitChunk (d :: rest)

def word_tokenize (s : Str) : List Str :=
  (splitWs s).foldr (fun chunk acc => splitChunk chunk ++ acc) []

/-- `count_tokens` from `src/preprocessing.py`: the number of words the
tokenizer produces. -/
def count_tokens (s : Str) : ℕ := (word_tokenize s).length

/-- `CORPORATE_STOPWORDS` from `src/preprocessing.py`, verbatim. -/
def CORPORATE_STOPWORDS : List Str :=
  [lit "group", lit "report", lit "fiscal", lit "year", lit "annual",
   lit "continued", lit "commitment", lit "company", lit "strategy",
   lit "management", lit "performance", lit "target", lit "approach",
   lit "page", lit "total", lit "new", lit "business", lit "data",
   lit "reporting", lit "also", lit "within"]

/-- Modelled from the spec: the NLTK English and Italian stopword corpora
(external data loaded at module import, §4.3 "general-language stopwords")
are modelled by a representative list of common English and Italian
function words.  No claim depends on the exact contents of this set. -/
def NLTK_STOPWORDS_MODEL : List Str :=
  [lit "the", lit "a", lit "an", lit "and", lit "or", lit "but", lit "if",
   lit "of", lit "to", lit "in", lit "on", lit "for", lit "with", lit "as",
   lit "by", lit "at", lit "from", lit "is", lit "are", lit "was", lit "were",
   lit "be", lit "been", lit "being", lit "it", lit "its", lit "this",
   lit "that", lit "these", lit "those", lit "we", lit "our", lit "you",
   lit "your", lit "he", lit "she", lit "they", lit "them", lit "their",
   lit "has", lit "have", lit "had", lit "do", lit "does", lit "did",
   lit "not", lit "no", lit "nor", lit "so", lit "than", lit "too",
   lit "very", lit "can", lit "will", lit "just", lit "i", lit "me",
   lit "my", lit "him", lit "his", lit "her", lit "what", lit "which",
   lit "who", lit "whom", lit "there", lit "here", lit "when", lit "where",
   lit "why", lit "how", lit "all", lit "any", lit "both", lit "each",
   lit "few", lit "more", lit "most", lit "other", lit "some", lit "such",
   lit "only", lit "own", lit "same", lit "s", lit "t", lit "don",
   lit "should", lit "now", lit "di", lit "a", lit "da", lit "in",
   lit "con", lit "su", lit "per", lit "tra", lit "fra", lit "il",
   lit "lo", lit "la", lit "le", lit "gli", lit "un", lit "una",
   lit "uno", lit "e", lit "ed", lit "o", lit "ma", lit "se", lit "che",
   lit "chi", lit "non", lit "come", lit "dove", lit "quando", lit "anche",
   lit "ancora", lit "del", lit "della", lit "dei", lit "delle", lit "al",
   lit "alla", lit "ai", lit "alle", lit "nel", lit "nella", lit "sono",
   lit "essere", lit "questo", lit "questa", lit "questi", lit "queste",
   lit "più", lit "meno", lit "molto", lit "poco", lit "tutto", lit "tutti"]

/-- `STOP_WORDS = nltk_stopwords ∪ CORPORATE_STOPWORDS`. -/
def STOP_WORDS : List Str := NLTK_STOPWORDS_MODEL ++ CORPORATE_STOPWORDS

/-- `remove_stopwords` from `src/preprocessing.py`: tokenize, drop tokens
whose lowercase form is a stop word, rejoin with single spaces. -/
def remove_stopwords (s : Str) : Str :=
  joinSp ((word_tokenize s).filter (fun w => decide (lowerStr w ∉ STOP_WORDS)))

/-- Matcher for the regex `\(cid:\d+\)` at the head of the string: returns
the number of characters the match consumes, or `none`. -/
def cidLen (s : Str) : Option ℕ :=
  if startsWithL (lit "(cid:") s then
    let t := s.drop 5
    let ds := t.takeWhile Char.isDigit
    match t.drop ds.length with
    | ')' :: _ => if ds = [] then none else some (5 + ds.length + 1)
    | _ => none
  else none

/-- `re.sub(r"\(cid:\d+\)", "", line)`: remove every occurrence of the PDF
glyph-id artifact, scanning left to right.  Structured with a character
fuel so the recursion is structural; the fuel `s.length` is always
sufficient because every step consumes at least one character. -/
def removeCidF : ℕ → Str → Str
  | 0, s => s
  | _ + 1, [] => []
  | n + 1, c :: rest =>
    match cidLen (c :: rest) with
    | some k => removeCidF n ((c :: rest).drop k)
    | none => c :: removeCidF n rest

def removeCid (s : Str) : Str := removeCidF s.length s

/-- Helper for `re.sub(r"\s+", " ", line)`: collapse runs of `' '`. -/
def squeezeSp : Str → Str
  | [] => []
  | a :: rest =>
    match rest with
    | [] => [a]
    | b :: _ => if a = ' ' ∧ b = ' ' then squeezeSp rest else a :: squeezeSp rest

/-- `re.sub(r"\s+", " ", line)`: every maximal whitespace run becomes one
space. -/
def collapseWs (s : Str) : Str :=
  squeezeSp (s.map (fun c => if isPyWs c then ' ' else c))

/-- Regex `^\d+\s*$` on the (stripped, lowered) line. -/
def noiseDigits (t : Str) : Bool :=
  decide (t.takeWhile Char.isDigit ≠ []) && (t.dropWhile Char.isDigit).all isPyWs

/-- Regex `^page\s+\d+$`. -/
def noisePage (t : Str) : Bool :=
  startsWithL (lit "page") t &&
    (let r := t.drop 4
     decide (r.takeWhile isPyWs ≠ []) &&
       (let d := r.dropWhile isPyWs
        decide (d ≠ []) && d.all Char.isDigit))

/-- Regex `^\s*report\s*$`. -/
def noiseReportHdr (t : Str) : Bool :=
  let r := t.dropWhile isPyWs
  startsWithL (lit "report") r && (r.drop 6).all isPyWs

/-- Search for `\(cid:\d+\)` anywhere in the string. -/
def hasCid : Str → Bool
  | [] => false
  | c :: rest => (cidLen (c :: rest)).isSome || hasCid rest

/-- Characters matched by the regex class `[a-z0-9-]`. -/
def isUrlBody (c : Char) : Bool := c.isLower || c.isDigit || c = '-'

/-- Match of `www\.[a-z0-9-]+\.[a-z]+` anchored at the head. -/
def urlAt (s : Str) : Bool :=
  startsWithL (lit "www.") s &&
    (let t := s.drop 4
     let a := t.takeWhile isUrlBody
     decide (a ≠ []) &&
       (match t.drop a.length with
        | '.' :: u => decide (u.takeWhile Char.isLower ≠ [])
        | _ => false))

/-- Search for `www\.[a-z0-9-]+\.[a-z]+` anywhere in the string. -/
def hasUrl : Str → Bool
  | [] => false
  | c :: rest => urlAt (c :: rest) || hasUrl rest

/-- `is_noise` from `src/preprocessing.py`: strip and lowercase, classify
fragments shorter than 5 characters as noise, then test the seven
`NOISE_PATTERNS` (all applied with `re.search`). -/
def is_noise (text : Str) : Bool :=
  let t := lowerStr (pyStrip text)
  if t.length < 5 then true
  else
    noiseDigits t || noisePage t || noiseReportHdr t ||
      hasSub (lit "confidential") t || hasSub (lit "all rights reserved") t ||
      hasCid t || hasUrl t

/-- `ESG_KEYWORDS` from `src/preprocessing.py`, verbatim.  Every pattern
in the source list is a literal string, so `re.search` is substring
containment on the lowercased paragraph. -/
def ESG_KEYWORDS : List Str :=
  [lit "emission", lit "ghg", lit "scope 1", lit "scope 2", lit "scope 3",
   lit "energy", lit "renewable", lit "carbon", lit "climate", lit "water",
   lit "waste", lit "biodiversity", lit "tco2", lit "mwh", lit "gj",
   lit "safety", lit "injury", lit "trir", lit "incident", lit "fatality",
   lit "workforce", lit "employee", lit "diversity", lit "women",
   lit "gender", lit "training", lit "human rights", lit "community",
   lit "governance", lit "board", lit "supplier", lit "supply chain",
   lit "traceability", lit "code of conduct", lit "corruption", lit "audit",
   lit "compliance", lit "risk", lit "materiality", lit "stakeholder"]

/-- `is_relevant` from `src/preprocessing.py`. -/
def is_relevant (text : Str) : Bool :=
  ESG_KEYWORDS.any (fun k => hasSub k (lowerStr text))

/-- First pass of `clean_text`: strip each raw line, drop empties and
noise, remove glyph artifacts, normalize whitespace, remove stopwords. -/
def cleanLines (raw : Str) : List Str :=
  (splitChar '\n' raw).filterMap (fun l =>
    let l1 := pyStrip l
    if l1 = [] then none
    else if is_noise l1 then none
    else some (remove_stopwords (collapseWs (removeCid l1))))

/-- Paragraph-closing test of `clean_text`'s second pass: the line ends
with `.`/`!`/`?`/`:`, or is fully upper-case and shorter than 100
characters. -/
def endsPunct (s : Str) : Bool :=
  match s.getLast? with
  | some c => decide (c ∈ ['.', '!', '?', ':'])
  | none => false

/-- Python `str.isupper()`: at least one cased character and no lowercase
cased character (ASCII letters are the cased characters appearing here). -/
def pyIsUpper (s : Str) : Bool :=
  s.any Char.isAlpha && s.all (fun c => !c.isAlpha || c.isUpper)

def paraCloses (line : Str) : Bool :=
  endsPunct line || (pyIsUpper line && decide (line.length < 100))

/-- Second pass of `clean_text`: accumulate lines in a buffer, close the
paragraph (single-space join) when the current line closes it, flush any
trailing buffer. -/
def mergeGo (buf : List Str) : List Str → List Str
  | [] => if buf = [] then [] else [joinSp buf]
  | l :: ls =>
    if paraCloses l then joinSp (buf ++ [l]) :: mergeGo [] ls
    else mergeGo (buf ++ [l]) ls

def mergeParas (lines : List Str) : List Str := mergeGo [] lines

/-- `clean_text` from `src/preprocessing.py`. -/
def clean_text (raw : Str) : Str :=
  intercalateNN (mergeParas (cleanLines raw))

/-- Python `str.title()`: a letter is uppercased when the previous
character is not a letter, lowercased otherwise. -/
def titleGo (prev : Bool) : Str → Str
  | [] => []
  | c :: rest =>
    (if c.isAlpha then (if prev then c.toLower else c.toUpper) else c) ::
      titleGo c.isAlpha rest

def pyTitle (s : Str) : Str := titleGo false s

/-- The bullet glyphs tested by `line.strip().startswith(('•', '-', '–'))`. -/
def startsBullet (s : Str) : Bool :=
  match s with
  | c :: _ => decide (c ∈ ['•', '-', '–'])
  | [] => false

/-- The character set stripped by `lstrip('•-– ')`. -/
def bulletStripChar (c : Char) : Bool := decide (c ∈ ['•', '-', '–', ' '])

/-- Per-paragraph case of `to_markdown` from `src/preprocessing.py`. -/
def mdPara (p : Str) : Str :=
  if pyIsUpper p && decide (p.length < 100) then lit "## " ++ pyTitle p
  else if startsBullet (pyStrip p) then
    lit "- " ++ (pyStrip p).dropWhile bulletStripChar
  else p

/-- `to_markdown` from `src/preprocessing.py`: transform each
double-newline-separated paragraph and rejoin. -/
def to_markdown (text : Str) : Str :=
  intercalateNN ((splitNN text).map mdPara)

/-- Qualifying paragraphs of `extract_top_keywords`: split on the
double-newline sentinel, keep (stripped) paragraphs with more than
5 whitespace-separated words. -/
def qualParas (text : Str) : List Str :=
  (splitNN text).filterMap (fun p =>
    if 5 < (splitWs p).length then some (pyStrip p) else none)

/-- Characters of the regex class `\w` used by the sklearn token pattern
`(?u)\b\w\w+\b`. -/
def isWordChar (c : Char) : Bool := c.isAlphanum || c = '_'

/-- Maximal runs of word characters (sklearn tokenization step). -/
def wordRuns : Str → List Str
  | [] => []
  | c :: rest =>
    if isWordChar c then
      match rest with
      | [] => [[c]]
      | d :: _ =>
        if isWordChar d then consHead c (wordRuns rest) else [c] :: wordRuns rest
    else wordRuns rest

/-- sklearn `TfidfVectorizer` document analysis: lowercase, keep word
runs of length at least 2 (`\w\w+`), remove stop words. -/
def docTokens (doc : Str) : List Str :=
  ((wordRuns (lowerStr doc)).filter (fun w => decide (2 ≤ w.length))).filter
    (fun w => decide (w ∉ STOP_WORDS))

/-- Adjacent bigrams joined by a single space (`ngram_range=(1, 2)`). -/
def bigramsOf : List Str → List Str
  | a :: b :: rest => (a ++ ' ' :: b) :: bigramsOf (b :: rest)
  | _ => []

/-- All terms (unigrams and bigrams) of one analyzed document. -/
def docNgrams (doc : Str) : List Str :=
  docTokens doc ++ bigramsOf (docTokens doc)

/-- Document frequency of a term across the paragraph corpus. -/
def dfCount (docs : List Str) (term : Str) : ℕ :=
  (docs.filter (fun d => decide (term ∈ docNgrams d))).length

/-- Lexicographic order on the character lists (sklearn sorts its
vocabulary by the Python string order, i.e. by code points). -/
def lexLe : Str → Str → Bool
  | [], _ => true
  | _ :: _, [] => false
  | a :: as, b :: bs => if a = b then lexLe as bs else decide (a < b)

/-- Insertion sort, stable like Python `sorted`. -/
def insertLe (le : Str → Str → Bool) (a : Str) : List Str → List Str
  | [] => [a]
  | b :: bs => if le a b then a :: b :: bs else b :: insertLe le a bs

def sortLe (le : Str → Str → Bool) : List Str → List Str
  | [] => []
  | a :: as => insertLe le a (sortLe le as)

/-- The fitted vocabulary: every term of the corpus, pruned by
`max_df=0.95` (keep a term when `df ≤ 0.95 · n_docs`, embedded as
`20·df ≤ 19·n`), sorted alphabetically.  `min_df=1` never prunes. -/
def buildVocab (docs : List Str) : List Str :=
  sortLe lexLe
    (((docs.map docNgrams).flatten.dedup).filter
      (fun t => decide (20 * dfCount docs t ≤ 19 * docs.length)))

/-- `extract_top_keywords` from `src/preprocessing.py`.  The numeric
TF-IDF weights are computed by sklearn in floating point; they are
modelled by the parameter `score` (the summed TF-IDF weight of a term),
so every theorem below holds for the actual weights in particular.
The guards are translated from the source: empty input, fewer than two
qualifying paragraphs, and the empty-vocabulary `ValueError` all yield
`[]`; otherwise the vocabulary is sorted by descending score (stable,
like Python `sorted` with `reverse=True`) and truncated to `top_n`. -/
def extract_top_keywords (score : Str → ℚ) (text_content : Str) (top_n : ℕ) :
    List Str :=
  if text_content = [] then []
  else
    let paragraphs := qualParas text_content
    if paragraphs.length < 2 then []
    else
      let vocab := buildVocab paragraphs
      if vocab = [] then []
      else (sortLe (fun a b => decide (score b ≤ score a)) vocab).take top_n

/-- Round half to even on the integers (the rounding mode of Python
`round`). -/
def roundHalfEven (q : ℚ) : ℤ :=
  let f := ⌊q⌋
  let frac := q - f
  if frac < 1 / 2 then f
  else if 1 / 2 < frac then f + 1
  else if f % 2 = 0 then f else f + 1

/-- Python `round(q, n)` embedded over exact rationals. -/
def pyRound (q : ℚ) (n : ℕ) : ℚ := (roundHalfEven (q * 10 ^ n) : ℚ) / 10 ^ n

/-- `calculate_csr_density` from `src/preprocessing.py`. -/
def calculate_csr_density (cleaned_text relevant_text : Str) : ℚ :=
  if cleaned_text = [] then 0
  else pyRound ((relevant_text.length : ℚ) / (cleaned_text.length : ℚ)) 4

/-- Relevance filtering step of `process_pdf_pipeline` with its 5 %
fallback.  The Python comparison `len(relevant) < len(paragraphs) * 0.05`
is embedded exactly over the rationals as `20 · relevant < paragraphs`
(for the document sizes of interest, e.g. multiples of 20, the IEEE
double product agrees with the exact rational). -/
def relevantFilter (cleaned_text : Str) : Str :=
  let paragraphs := splitNN cleaned_text
  let relevant_paragraphs := paragraphs.filter is_relevant
  if 20 * relevant_paragraphs.length < paragraphs.length then cleaned_text
  else intercalateNN relevant_paragraphs

/-- The record of `metrics` keys produced by `process_pdf_pipeline`. -/
structure Metrics where
  initial_tokens : ℕ
  final_tokens : ℕ
  reduction_pct : ℚ
  csr_density : ℚ
  conciseness : ℚ
deriving Repr, DecidableEq

/-- `process_pdf_pipeline` from `src/preprocessing.py`, modelled from the
extracted text onward: the PDF decoding step (pdfplumber, an external
collaborator per spec §4.8 step 1) produces `raw_text`, which is this
function's argument.  Everything after that point is translated from the
source. -/
def pipeline_from_raw (raw_text : Str) : Str × Str × Metrics :=
  let initial_tokens := count_tokens raw_text
  let cleaned_text := clean_text raw_text
  let cleaned_tokens := count_tokens cleaned_text
  let final_text_content := relevantFilter cleaned_text
  let csr_density := calculate_csr_density cleaned_text final_text_content
  let markdown_text := to_markdown final_text_content
  let final_tokens := count_tokens markdown_text
  let reduction_pct :=
    if 0 < initial_tokens then
      pyRound (((initial_tokens : ℚ) - (final_tokens : ℚ)) /
        (initial_tokens : ℚ) * 100) 2
    else 0
  let conciseness :=
    if 0 < cleaned_tokens then
      pyRound ((final_tokens : ℚ) / (cleaned_tokens : ℚ)) 4
    else 0
  (markdown_text, raw_text,
    ⟨initial_tokens, final_tokens, reduction_pct, csr_density, conciseness⟩)

/-- The metrics map returned by `analyze_structure`, which adds the
`top_keywords` key to the pipeline metrics. -/
structure FullMetrics where
  base : Metrics
  top_keywords : List Str
deriving Repr, DecidableEq

/-- `analyze_structure` from `src/extraction.py`: a `.pdf`-suffixed
filename runs the full pipeline and the keyword extractor (top 8 on the
processed text); any other filename yields `("", "", {})`, embedded as
`([], [], none)` where `none` stands for the empty metrics map. -/
def analyze_structure (score : Str → ℚ) (filename raw_text : Str) :
    Str × Str × Option FullMetrics :=
  if endsWithL (lit ".pdf") filename then
    let r := pipeline_from_raw raw_text
    (r.1, r.2.1, some ⟨r.2.2, extract_top_keywords score r.1 8⟩)
  else ([], [], none)

/-- Synthetic cleaned text for the fallback scenario of spec §8: 100
double-newline-separated paragraphs, of which exactly 2 contain an ESG
keyword (2 % < 5 %). -/
def fallbackCleaned : Str :=
  intercalateNN (List.replicate 98 (lit "hello") ++ [lit "carbon", lit "water"])

/-! ### Helper lemmas: rounding -/

theorem roundHalfEven_floor_le (q : ℚ) : ⌊q⌋ ≤ roundHalfEven q := by
  unfold roundHalfEven
  dsimp only
  split_ifs <;> omega

theorem roundHalfEven_nonneg {q : ℚ} (h : 0 ≤ q) : 0 ≤ roundHalfEven q :=
  le_trans (Int.floor_nonneg.mpr h) (roundHalfEven_floor_le q)

theorem roundHalfEven_le {q : ℚ} {m : ℤ} (h : q ≤ (m : ℚ)) :
    roundHalfEven q ≤ m := by
  have hf : ⌊q⌋ ≤ m := by
    have := Int.floor_le_floor h
    simpa [Int.floor_intCast] using this
  unfold roundHalfEven
  dsimp only
  split_ifs with h1 h2 h3
  · exact hf
  · rcases lt_or_eq_of_le hf with hlt | heq
    · omega
    · exfalso
      have hq : q - (⌊q⌋ : ℚ) ≤ 0 := by
        rw [heq]
        linarith
      linarith
  · exact hf
  · rcases lt_or_eq_of_le hf with hlt | heq
    · omega
    · exfalso
      have hq : q - (⌊q⌋ : ℚ) ≤ 0 := by
        rw [heq]
        linarith
      linarith

theorem pyRound_nonneg {q : ℚ} (n : ℕ) (h : 0 ≤ q) : 0 ≤ pyRound q n := by
  unfold pyRound
  have h1 : (0 : ℤ) ≤ roundHalfEven (q * 10 ^ n) :=
    roundHalfEven_nonneg (by positivity)
  have h2 : (0 : ℚ) ≤ (roundHalfEven (q * 10 ^ n) : ℚ) := by exact_mod_cast h1
  positivity

theorem pyRound_le_one {q : ℚ} (n : ℕ) (h : q ≤ 1) : pyRound q n ≤ 1 := by
  unfold pyRound
  have h1 : roundHalfEven (q * 10 ^ n) ≤ (10 : ℤ) ^ n := by
    apply roundHalfEven_le
    push_cast
    nlinarith [pow_pos (by norm_num : (0:ℚ) < 10) n]
  rw [div_le_one (by positivity)]
  exact_mod_cast h1

theorem pyRound_one_eq : pyRound 1 4 = 1 := by
  have h : ⌊(1 * 10 ^ 4 : ℚ)⌋ = 10000 := by
    have := Int.floor_intCast (α := ℚ) 10000
    norm_num at this ⊢
  unfold pyRound roundHalfEven
  dsimp only
  rw [h]
  norm_num

/-! ### Helper lemmas: the double-newline split and join -/

theorem splitNN_ne_nil (s : Str) : splitNN s ≠ [] := by
  induction s using splitNN.induct with
  | case1 => simp [splitNN]
  | case2 c => simp [splitNN]
  | case3 c d rest h ih => simp [splitNN, h]
  | case4 c d rest h ih =>
    rw [splitNN, if_neg h]
    rcases hs : splitNN (d :: rest) with _ | ⟨a, as⟩
    · exact absurd hs ih
    · simp [consHead]

theorem consHead_ne_nil (c : Char) (l : List Str) : consHead c l ≠ [] := by
  cases l <;> simp [consHead]

theorem intercalateNN_consHead (c : Char) {l : List Str} (h : l ≠ []) :
    intercalateNN (consHead c l) = c :: intercalateNN l := by
  rcases l with _ | ⟨a, as⟩
  · exact absurd rfl h
  · rcases as with _ | ⟨b, bs⟩
    · simp [consHead, intercalateNN]
    · simp [consHead, intercalateNN]

theorem intercalateNN_splitNN (s : Str) : intercalateNN (splitNN s) = s := by
  induction s using splitNN.induct with
  | case1 => simp [splitNN, intercalateNN]
  | case2 c => simp [splitNN, intercalateNN]
  | case3 c d rest h ih =>
    obtain ⟨hc, hd⟩ := h
    subst hc; subst hd
    rw [splitNN, if_pos ⟨rfl, rfl⟩]
    rcases hs : splitNN rest with _ | ⟨a, as⟩
    · exact absurd hs (splitNN_ne_nil rest)
    · have he : intercalateNN ([] :: a :: as) = '\n' :: '\n' :: intercalateNN (a :: as) := rfl
      rw [he, ← hs, ih]
  | case4 c d rest h ih =>
    rw [splitNN, if_neg h]
    rw [intercalateNN_consHead c (splitNN_ne_nil (d :: rest)), ih]

theorem splitNN_of_no_nl {s : Str} (h : '\n' ∉ s) : splitNN s = [s] := by
  induction s using splitNN.induct with
  | case1 => rfl
  | case2 c => rfl
  | case3 c d rest hcd ih =>
    exfalso
    apply h
    rw [hcd.1]
    exact List.mem_cons_self _ _
  | case4 c d rest hcd ih =>
    have hd : '\n' ∉ d :: rest := by
      intro hm
      exact h (List.mem_cons_of_mem c hm)
    rw [splitNN, if_neg hcd, ih hd]
    rfl

theorem splitNN_append_nn {a : Str} (t : Str) (h : '\n' ∉ a) :
    splitNN (a ++ '\n' :: '\n' :: t) = a :: splitNN t := by
  induction a with
  | nil => simp [splitNN]
  | cons c a' ih =>
    have hc : c ≠ '\n' := by
      intro hc
      exact h (by simp [hc])
    have h' : '\n' ∉ a' := fun hm => h (List.mem_cons_of_mem c hm)
    rcases a' with _ | ⟨e, a''⟩
    · show splitNN (c :: '\n' :: '\n' :: t) = [c] :: splitNN t
      rw [splitNN, if_neg (by simp [hc])]
      rw [show splitNN ('\n' :: '\n' :: t) = [] :: splitNN t from by simp [splitNN]]
      rfl
    · have he : splitNN ((e :: a'') ++ '\n' :: '\n' :: t) = (e :: a'') :: splitNN t := ih h'
      rw [List.cons_append] at he
      show splitNN (c :: (e :: (a'' ++ '\n' :: '\n' :: t))) = (c :: e :: a'') :: splitNN t
      rw [splitNN, if_neg (by simp [hc]), he]
      rfl

theorem splitNN_intercalateNN {l : List Str} (h : l ≠ [])
    (h2 : ∀ p ∈ l, '\n' ∉ p) : splitNN (intercalateNN l) = l := by
  induction l with
  | nil => exact absurd rfl h
  | cons a t ih =>
    rcases t with _ | ⟨b, t'⟩
    · exact splitNN_of_no_nl (h2 a (by simp))
    · rw [show intercalateNN (a :: b :: t') =
            a ++ '\n' :: '\n' :: intercalateNN (b :: t') from rfl]
      rw [splitNN_append_nn _ (h2 a (by simp))]
      rw [ih (by simp) (fun p hp => h2 p (List.mem_cons_of_mem a hp))]

theorem length_intercalateNN_cons (a : Str) (l : List Str) :
    (intercalateNN (a :: l)).length =
      a.length + (if l = [] then 0 else 2 + (intercalateNN l).length) := by
  rcases l with _ | ⟨b, t⟩
  · simp [intercalateNN]
  · simp [intercalateNN, List.length_append]
    omega

theorem length_intercalateNN_filter_le (p : Str → Bool) (l : List Str) :
    (intercalateNN (l.filter p)).length ≤ (intercalateNN l).length := by
  induction l with
  | nil => simp
  | cons a l ih =>
    rw [List.filter_cons]
    by_cases hpa : p a = true
    · simp only [if_pos hpa]
      rw [length_intercalateNN_cons, length_intercalateNN_cons]
      by_cases hf : l.filter p = []
      · rw [if_pos hf]
        split <;> omega
      · have hl : l ≠ [] := by
          intro h0
          subst h0
          simp at hf
        rw [if_neg hf, if_neg hl]
        omega
    · simp only [if_neg hpa]
      calc (intercalateNN (l.filter p)).length ≤ (intercalateNN l).length := ih
        _ ≤ (intercalateNN (a :: l)).length := by
            rw [length_intercalateNN_cons]
            split
            · rename_i h0
              subst h0
              simp [intercalateNN]
            · omega

/-! ### Helper lemmas: tokenizer characters -/

theorem consHead_forall {P : Char → Prop} {c : Char} {l : List Str}
    (hc : P c) (hl : ∀ w ∈ l, ∀ x ∈ w, P x) :
    ∀ w ∈ consHead c l, ∀ x ∈ w, P x := by
  rcases l with _ | ⟨a, as⟩
  · intro w hw x hx
    simp [consHead] at hw
    subst hw
    simp at hx
    subst hx
    exact hc
  · intro w hw x hx
    simp [consHead] at hw
    rcases hw with hw | hw
    · subst hw
      rcases List.mem_cons.mp hx with hx | hx
      · subst hx
        exact hc
      · exact hl a (by simp) x hx
    · exact hl w (List.mem_cons_of_mem a hw) x hx

theorem splitWs_chars (s : Str) :
    ∀ w ∈ splitWs s, ∀ x ∈ w, isPyWs x = false := by
  induction s using splitWs.induct with
  | case1 => simp [splitWs]
  | case2 c hc =>
    rw [splitWs, if_pos hc]
    simp
  | case3 c hc =>
    intro w hw x hx
    rw [splitWs, if_neg hc] at hw
    simp at hw
    subst hw
    simp at hx
    subst hx
    simpa using hc
  | case4 c d rest hc ih =>
    rw [splitWs, if_pos hc]
    exact ih
  | case5 c d rest hc hd ih =>
    intro w hw x hx
    rw [splitWs, if_neg hc, if_pos hd] at hw
    rcases List.mem_cons.mp hw with hw | hw
    · subst hw
      simp at hx
      subst hx
      simpa using hc
    · exact ih w hw x hx
  | case6 c d rest hc hd ih =>
    intro w hw x hx
    rw [splitWs, if_neg hc, if_neg hd] at hw
    exact consHead_forall (by simpa using hc) ih w hw x hx

theorem splitChunk_chars (s : Str) :
    ∀ w ∈ splitChunk s, ∀ x ∈ w, x ∈ s := by
  induction s using splitChunk.induct with
  | case1 => simp [splitChunk]
  | case2 c =>
    intro w hw x hx
    rw [splitChunk] at hw
    simp at hw
    subst hw
    simpa using hx
  | case3 c d rest hc hd ih =>
    intro w hw x hx
    rw [splitChunk, if_pos hc, if_pos hd] at hw
    exact consHead_forall (P := fun y => y ∈ c :: d :: rest) (by simp)
      (fun w' hw' x' hx' => List.mem_cons_of_mem c (ih w' hw' x' hx')) w hw x hx
  | case4 c d rest hc hd ih =>
    intro w hw x hx
    rw [splitChunk, if_pos hc, if_neg hd] at hw
    rcases List.mem_cons.mp hw with hw | hw
    · subst hw
      simp at hx
      subst hx
      simp
    · exact List.mem_cons_of_mem c (ih w hw x hx)
  | case5 c d rest hc ih =>
    intro w hw x hx
    rw [splitChunk, if_neg hc] at hw
    rcases List.mem_cons.mp hw with hw | hw
    · subst hw
      simp at hx
      subst hx
      simp
    · exact List.mem_cons_of_mem c (ih w hw x hx)

theorem foldr_splitChunk_mem {w : Str} {L : List Str}
    (hw : w ∈ L.foldr (fun chunk acc => splitChunk chunk ++ acc) []) :
    ∃ chunk ∈ L, w ∈ splitChunk chunk := by
  induction L with
  | nil => simp at hw
  | cons a l ih =>
    rw [List.foldr_cons] at hw
    rcases List.mem_append.mp hw with hw | hw
    · exact ⟨a, by simp, hw⟩
    · obtain ⟨chunk, hc, hwc⟩ := ih hw
      exact ⟨chunk, List.mem_cons_of_mem a hc, hwc⟩

theorem word_tokenize_mem {s : Str} {w : Str} (hw : w ∈ word_tokenize s) :
    ∃ chunk ∈ splitWs s, w ∈ splitChunk chunk :=
  foldr_splitChunk_mem hw

theorem word_tokenize_no_ws {s : Str} {w : Str} (hw : w ∈ word_tokenize s) :
    ∀ x ∈ w, isPyWs x = false := by
  obtain ⟨chunk, hc, hwc⟩ := word_tokenize_mem hw
  intro x hx
  exact splitWs_chars s chunk hc x (splitChunk_chars chunk w hwc x hx)

theorem joinSp_chars {P : Char → Prop} (hsp : P ' ') :
    ∀ {l : List Str}, (∀ w ∈ l, ∀ x ∈ w, P x) → ∀ x ∈ joinSp l, P x := by
  intro l
  induction l with
  | nil => simp [joinSp]
  | cons a t ih =>
    intro hl x hx
    rcases t with _ | ⟨b, t'⟩
    · exact hl a (by simp) x hx
    · rw [show joinSp (a :: b :: t') = a ++ ' ' :: joinSp (b :: t') from rfl] at hx
      rcases List.mem_append.mp hx with hx | hx
      · exact hl a (by simp) x hx
      · rcases List.mem_cons.mp hx with hx | hx
        · subst hx
          exact hsp
        · exact ih (fun w hw => hl w (List.mem_cons_of_mem a hw)) x hx

theorem remove_stopwords_no_nl (s : Str) : '\n' ∉ remove_stopwords s := by
  intro hmem
  unfold remove_stopwords at hmem
  have := joinSp_chars (P := fun c => c = '\n' → False) (by simp)
    (fun w hw x hx hxe => by
      subst hxe
      have hws := word_tokenize_no_ws (List.mem_of_mem_filter hw) _ hx
      simp [isPyWs] at hws)
    '\n' hmem
  exact this rfl

theorem cleanLines_no_nl (raw : Str) : ∀ l ∈ cleanLines raw, '\n' ∉ l := by
  intro l hl
  unfold cleanLines at hl
  rcases List.mem_filterMap.mp hl with ⟨x, -, hx⟩
  dsimp only at hx
  by_cases h1 : pyStrip x = []
  · rw [if_pos h1] at hx
    exact absurd hx (by simp)
  · rw [if_neg h1] at hx
    by_cases h2 : is_noise (pyStrip x) = true
    · rw [if_pos h2] at hx
      exact absurd hx (by simp)
    · rw [if_neg h2] at hx
      rw [← Option.some.inj hx]
      exact remove_stopwords_no_nl _

theorem mergeGo_no_nl {buf lines : List Str}
    (hb : ∀ b ∈ buf, '\n' ∉ b) (hl : ∀ l ∈ lines, '\n' ∉ l) :
    ∀ p ∈ mergeGo buf lines, '\n' ∉ p := by
  induction lines generalizing buf with
  | nil =>
    intro p hp
    rw [mergeGo] at hp
    by_cases hbuf : buf = []
    · simp [hbuf] at hp
    · rw [if_neg hbuf] at hp
      simp at hp
      subst hp
      intro hmem
      exact joinSp_chars (P := fun c => c = '\n' → False) (by simp)
        (fun w hw x hx hxe => hb w hw (hxe ▸ hx)) '\n' hmem rfl
  | cons l ls ih =>
    intro p hp
    rw [mergeGo] at hp
    have hbl : ∀ b ∈ buf ++ [l], '\n' ∉ b := by
      intro b hbm
      rcases List.mem_append.mp hbm with hbm | hbm
      · exact hb b hbm
      · simp at hbm
        subst hbm
        exact hl b (by simp)
    by_cases hc : paraCloses l = true
    · rw [if_pos hc] at hp
      rcases List.mem_cons.mp hp with hp | hp
      · subst hp
        intro hmem
        exact joinSp_chars (P := fun c => c = '\n' → False) (by simp)
          (fun w hw x hx hxe => hbl w hw (hxe ▸ hx)) '\n' hmem rfl
      · exact ih (by simp) (fun x hx => hl x (List.mem_cons_of_mem l hx)) p hp
    · rw [if_neg hc] at hp
      exact ih hbl (fun x hx => hl x (List.mem_cons_of_mem l hx)) p hp

theorem mergeParas_no_nl (lines : List Str) (hl : ∀ l ∈ lines, '\n' ∉ l) :
    ∀ p ∈ mergeParas lines, '\n' ∉ p :=
  mergeGo_no_nl (by simp) hl

/-! ### Helper lemmas: paragraph merging -/

theorem paraCloses_of_last_dot {line : Str} (h : line.getLast? = some '.') :
    paraCloses line = true := by
  unfold paraCloses endsPunct
  rw [h]
  simp

theorem mergeGo_skip {pre : List Str} (hpre : ∀ l ∈ pre, paraCloses l = false) :
    ∀ (buf t : List Str), mergeGo buf (pre ++ t) = mergeGo (buf ++ pre) t := by
  induction pre with
  | nil =>
    intro buf t
    simp
  | cons p pre' ih =>
    intro buf t
    rw [List.cons_append, mergeGo,
      if_neg (by simp [hpre p (by simp)])]
    rw [ih (fun l hl => hpre l (List.mem_cons_of_mem p hl)) (buf ++ [p]) t]
    rw [List.append_cons buf p pre']

theorem splitWs_eq_nil_of_ws {s : Str} (h : ∀ c ∈ s, isPyWs c = true) :
    splitWs s = [] := by
  induction s using splitWs.induct with
  | case1 => rfl
  | case2 c hc => rw [splitWs, if_pos hc]
  | case3 c hc => exact absurd (h c (by simp)) (by simpa using hc)
  | case4 c d rest hc ih =>
    rw [splitWs, if_pos hc]
    exact ih (fun x hx => h x (List.mem_cons_of_mem c hx))
  | case5 c d rest hc hd ih => exact absurd (h c (by simp)) (by simpa using hc)
  | case6 c d rest hc hd ih => exact absurd (h c (by simp)) (by simpa using hc)

theorem count_tokens_eq_zero_of_ws {s : Str} (h : ∀ c ∈ s, isPyWs c = true) :
    count_tokens s = 0 := by
  unfold count_tokens word_tokenize
  rw [splitWs_eq_nil_of_ws h]
  rfl

/-! ### Helper lemmas: pipeline projections (definitional) -/

theorem pipeline_markdown_eq (raw : Str) :
    (pipeline_from_raw raw).1 = to_markdown (relevantFilter (clean_text raw)) := rfl

theorem pipeline_raw_eq (raw : Str) : (pipeline_from_raw raw).2.1 = raw := rfl

theorem pipeline_csr_eq (raw : Str) :
    (pipeline_from_raw raw).2.2.csr_density =
      calculate_csr_density (clean_text raw) (relevantFilter (clean_text raw)) := rfl

theorem pipeline_reduction_eq (raw : Str) :
    (pipeline_from_raw raw).2.2.reduction_pct =
      if 0 < count_tokens raw then
        pyRound (((count_tokens raw : ℚ) -
          (count_tokens (to_markdown (relevantFilter (clean_text raw))) : ℚ)) /
          (count_tokens raw : ℚ) * 100) 2
      else 0 := rfl

theorem pipeline_conciseness_eq (raw : Str) :
    (pipeline_from_raw raw).2.2.conciseness =
      if 0 < count_tokens (clean_text raw) then
        pyRound ((count_tokens (to_markdown (relevantFilter (clean_text raw))) : ℚ) /
          (count_tokens (clean_text raw) : ℚ)) 4
      else 0 := rfl

/-! ### Helper lemmas: the relevance filter -/

theorem relevantFilter_of_lt {s : Str}
    (h : 20 * ((splitNN s).filter is_relevant).length < (splitNN s).length) :
    relevantFilter s = s := by
  unfold relevantFilter
  dsimp only
  rw [if_pos h]

theorem relevantFilter_of_ge {s : Str}
    (h : ¬ 20 * ((splitNN s).filter is_relevant).length < (splitNN s).length) :
    relevantFilter s = intercalateNN ((splitNN s).filter is_relevant) := by
  unfold relevantFilter
  dsimp only
  rw [if_neg h]

theorem relevantFilter_length_le (s : Str) :
    (relevantFilter s).length ≤ s.length := by
  by_cases h : 20 * ((splitNN s).filter is_relevant).length < (splitNN s).length
  · rw [relevantFilter_of_lt h]
  · rw [relevantFilter_of_ge h]
    calc (intercalateNN ((splitNN s).filter is_relevant)).length
        ≤ (intercalateNN (splitNN s)).length :=
          length_intercalateNN_filter_le is_relevant (splitNN s)
      _ = s.length := by rw [intercalateNN_splitNN]

theorem calculate_csr_density_nonneg (s t : Str) :
    0 ≤ calculate_csr_density s t := by
  unfold calculate_csr_density
  split
  · exact le_refl 0
  · exact pyRound_nonneg 4 (by positivity)

theorem calculate_csr_density_le_one {s t : Str} (h : t.length ≤ s.length) :
    calculate_csr_density s t ≤ 1 := by
  unfold calculate_csr_density
  split
  · norm_num
  · rename_i hs
    apply pyRound_le_one
    have hpos : (0 : ℚ) < (s.length : ℚ) := by
      have : s.length ≠ 0 := by
        intro h0
        exact hs (List.length_eq_zero.mp h0)
      positivity
    rw [div_le_one hpos]
    exact_mod_cast h

theorem calculate_csr_density_self {cleaned : Str} (h : cleaned ≠ []) :
    calculate_csr_density cleaned cleaned = 1 := by
  unfold calculate_csr_density
  rw [if_neg h]
  have hlen : (cleaned.length : ℚ) ≠ 0 := by
    have hne : cleaned.length ≠ 0 := fun h0 => h (List.length_eq_zero.mp h0)
    exact_mod_cast hne
  rw [div_self hlen]
  exact pyRound_one_eq

/-! ### Claim theorems -/

/-- C2: for every cleaned text, the pipeline's relevance step splits on the
double-newline sentinel and partitions by `is_relevant`; when the relevant
paragraphs are strictly fewer than 5 % of the total the whole cleaned text
is kept unchanged, otherwise exactly the relevant paragraphs re-joined
with the double-newline separator are kept. -/
theorem C2_relevance_fallback (cleaned : Str) :
    (20 * ((splitNN cleaned).filter is_relevant).length < (splitNN cleaned).length →
      relevantFilter cleaned = cleaned) ∧
    ((splitNN cleaned).length ≤ 20 * ((splitNN cleaned).filter is_relevant).length →
      relevantFilter cleaned = intercalateNN ((splitNN cleaned).filter is_relevant)) :=
  ⟨fun h => relevantFilter_of_lt h, fun h => relevantFilter_of_ge (not_lt.mpr h)⟩

/-- C2 witness: the synthetic 100-paragraph document with 2 relevant
paragraphs keeps the full cleaned text. -/
theorem C2_witness :
    (splitNN fallbackCleaned).length = 100 ∧
    ((splitNN fallbackCleaned).filter is_relevant).length = 2 ∧
    relevantFilter fallbackCleaned = fallbackCleaned :=
  ⟨by decide, by decide, (C2_relevance_fallback fallbackCleaned).1 (by decide)⟩

/-- C4 counterexample: `count_tokens` is not monotone in text length:
`"a b"` (3 characters) has 2 tokens while the longer `"abcd"`
(4 characters) has 1. -/
theorem C4_counterexample :
    (lit "a b").length ≤ (lit "abcd").length ∧
    count_tokens (lit "abcd") < count_tokens (lit "a b") := by decide

/-- C4 amended: `count_tokens` is a total (hence deterministic) function
into the naturals, so it is non-negative, and whitespace-only (in
particular empty) input yields 0; monotonicity in text length does not
hold. -/
theorem C4_amended (t : Str) :
    0 ≤ count_tokens t ∧ ((∀ c ∈ t, isPyWs c = true) → count_tokens t = 0) :=
  ⟨Nat.zero_le _, count_tokens_eq_zero_of_ws⟩

/-- C4 witness: the whitespace-only string of two blanks has 0 tokens. -/
theorem C4_witness : 0 ≤ count_tokens (lit "  ") ∧ count_tokens (lit "  ") = 0 :=
  ⟨(C4_amended (lit "  ")).1, (C4_amended (lit "  ")).2 (by decide)⟩

/-- C5: `analyze_structure` returns the empty triple (empty strings and
the empty metrics map, embedded as `none`) for every filename that does
not end in `.pdf`, without invoking the pipeline; for a `.pdf` filename
it returns the full pipeline outputs plus the top-8 keywords. -/
theorem C5_analyze_structure (score : Str → ℚ) (filename raw : Str) :
    (endsWithL (lit ".pdf") filename = false →
      analyze_structure score filename raw = ([], [], none)) ∧
    (endsWithL (lit ".pdf") filename = true →
      analyze_structure score filename raw =
        ((pipeline_from_raw raw).1, (pipeline_from_raw raw).2.1,
          some ⟨(pipeline_from_raw raw).2.2,
            extract_top_keywords score (pipeline_from_raw raw).1 8⟩)) := by
  constructor
  · intro h
    unfold analyze_structure
    rw [if_neg (by simp [h])]
  · intro h
    unfold analyze_structure
    rw [if_pos h]

/-- C5 witness: a `.docx` filename yields the empty outputs. -/
theorem C5_witness :
    analyze_structure (fun _ => 0) (lit "report.docx") (lit "text") =
      ([], [], none) :=
  (C5_analyze_structure (fun _ => 0) (lit "report.docx") (lit "text")).1 (by decide)

/-- C9: whenever the 5 % fallback triggers on a non-empty cleaned text the
reported CSR density is exactly 1; the same value 1 is also reported when
every paragraph is relevant, so a density of 1.0 does not distinguish the
two situations. -/
theorem C9_fallback_csr_density :
    (∀ cleaned : Str, cleaned ≠ [] →
      20 * ((splitNN cleaned).filter is_relevant).length < (splitNN cleaned).length →
      calculate_csr_density cleaned (relevantFilter cleaned) = 1) ∧
    (∀ cleaned : Str, cleaned ≠ [] →
      (splitNN cleaned).filter is_relevant = splitNN cleaned →
      calculate_csr_density cleaned (relevantFilter cleaned) = 1) := by
  constructor
  · intro cleaned h1 h2
    rw [relevantFilter_of_lt h2]
    exact calculate_csr_density_self h1
  · intro cleaned h1 hall
    have hn : (splitNN cleaned).length ≠ 0 := by
      intro h0
      exact splitNN_ne_nil cleaned (List.length_eq_zero.mp h0)
    have hge : ¬ 20 * ((splitNN cleaned).filter is_relevant).length <
        (splitNN cleaned).length := by
      rw [hall]
      omega
    rw [relevantFilter_of_ge hge, hall, intercalateNN_splitNN]
    exact calculate_csr_density_self h1

/-- C9 witness: a one-paragraph cleaned text with no ESG keyword triggers
the fallback and reports density 1. -/
theorem C9_witness :
    calculate_csr_density (lit "hello") (relevantFilter (lit "hello")) = 1 :=
  C9_fallback_csr_density.1 (lit "hello") (by decide) (by decide)

/-- C10 counterexample: for the empty raw text the reconstructor produces
no paragraphs, but splitting the (empty) cleaned text on the
double-newline sentinel yields one empty paragraph, so the downstream
split does not recover the reconstructor's paragraph list exactly. -/
theorem C10_counterexample :
    splitNN (clean_text []) ≠ mergeParas (cleanLines []) := by decide

/-- C10 amended: no reconstructed paragraph ever contains a newline, and
whenever at least one cleaned line survives (the reconstructor's output
is non-empty) splitting the cleaned text on the double-newline sentinel
recovers exactly the reconstructor's paragraphs; for an input with no
surviving lines the cleaned text is empty and the split yields one empty
paragraph instead of the empty list. -/
theorem C10_amended (raw : Str) :
    (∀ p ∈ mergeParas (cleanLines raw), '\n' ∉ p) ∧
    (mergeParas (cleanLines raw) ≠ [] →
      splitNN (clean_text raw) = mergeParas (cleanLines raw)) := by
  refine ⟨mergeParas_no_nl _ (cleanLines_no_nl raw), fun hne => ?_⟩
  unfold clean_text
  exact splitNN_intercalateNN hne (mergeParas_no_nl _ (cleanLines_no_nl raw))

/-- C10 witness: a two-line raw text whose cleaning survives produces two
paragraphs that the double-newline split recovers exactly. -/
theorem C10_witness :
    splitNN (clean_text (lit "Carbon emissions fell.\nSAFETY FIRST")) =
      mergeParas (cleanLines (lit "Carbon emissions fell.\nSAFETY FIRST")) :=
  (C10_amended (lit "Carbon emissions fell.\nSAFETY FIRST")).2 (by decide)

/-- C1 counterexample: the Markdown structurer can increase the token
count (the `## ` header prefix adds tokens), and on the pipeline run for
the raw text `"EMISSIONS CARBON."` the reported conciseness exceeds 1
(the cleaned text has 3 tokens, its Markdown rendering
`"## Emissions Carbon ."` has 5, so conciseness = round(5/3, 4) > 1). -/
theorem C1_counterexample :
    count_tokens (lit "EMISSIONS CARBON .") <
      count_tokens (to_markdown (lit "EMISSIONS CARBON .")) ∧
    1 < (pipeline_from_raw (lit "EMISSIONS CARBON.")).2.2.conciseness := by
  constructor
  · decide
  · rw [pipeline_conciseness_eq]
    have h1 : count_tokens (to_markdown (relevantFilter
        (clean_text (lit "EMISSIONS CARBON.")))) = 5 := by decide
    have h2 : count_tokens (clean_text (lit "EMISSIONS CARBON.")) = 3 := by decide
    rw [h1, h2, if_pos (by norm_num)]
    have hb : (16666 : ℤ) ≤ roundHalfEven (((5 : ℕ) : ℚ) / ((3 : ℕ) : ℚ) * 10 ^ 4) := by
      calc (16666 : ℤ) ≤ ⌊((5 : ℕ) : ℚ) / ((3 : ℕ) : ℚ) * 10 ^ 4⌋ := by
            apply Int.le_floor.mpr
            push_cast
            norm_num
        _ ≤ _ := roundHalfEven_floor_le _
    unfold pyRound
    have hbq : (16666 : ℚ) ≤
        (roundHalfEven (((5 : ℕ) : ℚ) / ((3 : ℕ) : ℚ) * 10 ^ 4) : ℚ) := by
      exact_mod_cast hb
    calc (1 : ℚ) < 16666 / 10 ^ 4 := by norm_num
      _ ≤ (roundHalfEven (((5 : ℕ) : ℚ) / ((3 : ℕ) : ℚ) * 10 ^ 4) : ℚ) / 10 ^ 4 := by
          gcongr

/-- C1 amended: for every raw text the pipeline metrics satisfy
`0 ≤ csr_density ≤ 1` and `0 ≤ conciseness`; the bound `conciseness ≤ 1`
does not hold in general because the Markdown structurer can add header
tokens. -/
theorem C1_amended (raw : Str) :
    0 ≤ (pipeline_from_raw raw).2.2.csr_density ∧
    (pipeline_from_raw raw).2.2.csr_density ≤ 1 ∧
    0 ≤ (pipeline_from_raw raw).2.2.conciseness := by
  rw [pipeline_csr_eq, pipeline_conciseness_eq]
  refine ⟨calculate_csr_density_nonneg _ _,
    calculate_csr_density_le_one (relevantFilter_length_le _), ?_⟩
  split
  · exact pyRound_nonneg 4 (by positivity)
  · exact le_refl 0

/-- C3: the three ratio metrics of the pipeline are exactly the guarded
rounded formulas of the source (density over characters, reduction and
conciseness over token counts, each formula replaced by 0 when its
denominator is zero), and the empty document completes with the zero
metrics record and empty outputs. -/
theorem C3_metrics_formulas :
    (∀ raw : Str,
      (pipeline_from_raw raw).2.2.csr_density =
        (if clean_text raw = [] then 0
         else pyRound (((relevantFilter (clean_text raw)).length : ℚ) /
           ((clean_text raw).length : ℚ)) 4) ∧
      (pipeline_from_raw raw).2.2.reduction_pct =
        (if 0 < count_tokens raw then
          pyRound (((count_tokens raw : ℚ) -
            (count_tokens (to_markdown (relevantFilter (clean_text raw))) : ℚ)) /
            (count_tokens raw : ℚ) * 100) 2
         else 0) ∧
      (pipeline_from_raw raw).2.2.conciseness =
        (if 0 < count_tokens (clean_text raw) then
          pyRound ((count_tokens (to_markdown (relevantFilter (clean_text raw))) : ℚ) /
            (count_tokens (clean_text raw) : ℚ)) 4
         else 0)) ∧
    pipeline_from_raw [] = ([], [], ⟨0, 0, 0, 0, 0⟩) :=
  ⟨fun _ => ⟨rfl, rfl, rfl⟩, rfl⟩

/-- C6: `extract_top_keywords` is total and returns at most `top_n` terms
for every scoring function (in particular for the actual summed TF-IDF
weights): empty input, fewer than two qualifying paragraphs (more than 5
words each), and an empty fitted vocabulary all yield the empty list, and
otherwise the result is exactly the vocabulary sorted by non-increasing
score (stably, as Python `sorted` with `reverse=True`) truncated to
`top_n`. -/
theorem C6_extract_top_keywords (score : Str → ℚ) (text : Str) (top_n : ℕ) :
    (extract_top_keywords score text top_n).length ≤ top_n ∧
    (text = [] → extract_top_keywords score text top_n = []) ∧
    ((qualParas text).length < 2 → extract_top_keywords score text top_n = []) ∧
    (buildVocab (qualParas text) = [] → extract_top_keywords score text top_n = []) ∧
    (text ≠ [] → 2 ≤ (qualParas text).length → buildVocab (qualParas text) ≠ [] →
      extract_top_keywords score text top_n =
        (sortLe (fun a b => decide (score b ≤ score a))
          (buildVocab (qualParas text))).take top_n) := by
  unfold extract_top_keywords
  dsimp only
  refine ⟨?_, ?_, ?_, ?_, ?_⟩
  · split_ifs with h1 h2 h3
    · simp
    · simp
    · simp
    · rw [List.length_take]
      exact min_le_left _ _
  · intro h
    rw [if_pos h]
  · intro h
    split_ifs <;> rfl
  · intro h
    split_ifs <;> rfl
  · intro h1 h2 h3
    rw [if_neg h1, if_neg (not_lt.mpr h2), if_neg h3]

/-- C6 witness: the empty input yields the empty keyword list. -/
theorem C6_witness : extract_top_keywords (fun _ => 0) [] 3 = [] :=
  (C6_extract_top_keywords (fun _ => 0) [] 3).2.1 rfl

/-- C8: `to_markdown` transforms each double-newline-separated paragraph
independently and rejoins with the double-newline separator; a fully
upper-case paragraph shorter than 100 characters becomes a `## ` header
in title case, otherwise a paragraph starting (after strip) with a bullet
glyph becomes `- ` followed by the stripped paragraph with the leading
bullet/whitespace characters removed, and every other paragraph passes
through unchanged; the two concrete renderings of the specification
hold. -/
theorem C8_markdown :
    (∀ text : Str, to_markdown text = intercalateNN ((splitNN text).map mdPara)) ∧
    (∀ p : Str, pyIsUpper p = true → p.length < 100 →
      mdPara p = lit "## " ++ pyTitle p) ∧
    (∀ p : Str, ¬(pyIsUpper p = true ∧ p.length < 100) →
      startsBullet (pyStrip p) = true →
      mdPara p = lit "- " ++ (pyStrip p).dropWhile bulletStripChar) ∧
    (∀ p : Str, ¬(pyIsUpper p = true ∧ p.length < 100) →
      startsBullet (pyStrip p) = false → mdPara p = p) ∧
    to_markdown (lit "SUSTAINABILITY HIGHLIGHTS") = lit "## Sustainability Highlights" ∧
    to_markdown (lit "• Reduced water usage by 10%") = lit "- Reduced water usage by 10%" := by
  refine ⟨fun _ => rfl, ?_, ?_, ?_, by decide, by decide⟩
  · intro p h1 h2
    unfold mdPara
    rw [if_pos (by simp [h1, h2])]
  · intro p h1 h2
    unfold mdPara
    rw [if_neg (by simpa [Bool.and_eq_true, decide_eq_true_eq] using h1), if_pos h2]
  · intro p h1 h2
    unfold mdPara
    rw [if_neg (by simpa [Bool.and_eq_true, decide_eq_true_eq] using h1), if_neg (by simp [h2])]

/-- C8 witness: a concrete header paragraph and a concrete bullet
paragraph take the two respective branches. -/
theorem C8_witness :
    mdPara (lit "KEY FIGURES") = lit "## " ++ pyTitle (lit "KEY FIGURES") ∧
    mdPara (lit "• item one") = lit "- " ++ (pyStrip (lit "• item one")).dropWhile bulletStripChar :=
  ⟨C8_markdown.2.1 (lit "KEY FIGURES") (by decide) (by decide),
   C8_markdown.2.2.1 (lit "• item one") (by decide) (by decide)⟩

/-- C7: the paragraph reconstructor closes a paragraph exactly at lines
satisfying `paraCloses` (ending in `.`/`!`/`?`/`:` or an upper-case line
shorter than 100 characters) and flushes any trailing buffer, so for
every sequence of line groups in which only each group's final line
closes a paragraph — in particular when it ends with `'.'` — the
reconstructor emits exactly one paragraph per group, the single-space
join of the group's lines. -/
theorem C7_paragraph_roundtrip (groups : List (List Str))
    (h : ∀ g ∈ groups, (∀ l ∈ g.dropLast, paraCloses l = false) ∧
      g.getLast?.bind List.getLast? = some '.') :
    mergeParas groups.flatten = groups.map joinSp := by
  induction groups with
  | nil => rfl
  | cons g gs ih =>
    obtain ⟨hpre, hdot⟩ := h g (List.mem_cons_self _ _)
    have hgne : g ≠ [] := by
      intro h0
      subst h0
      simp at hdot
    have hlast : g.getLast? = some (g.getLast hgne) := List.getLast?_eq_getLast g hgne
    have hdot' : (g.getLast hgne).getLast? = some '.' := by
      rw [hlast] at hdot
      simpa using hdot
    have hg : g.dropLast ++ [g.getLast hgne] = g := List.dropLast_append_getLast hgne
    have hclose : paraCloses (g.getLast hgne) = true := paraCloses_of_last_dot hdot'
    calc mergeParas (g :: gs).flatten
        = mergeGo [] ((g.dropLast ++ [g.getLast hgne]) ++ gs.flatten) := by
          rw [List.flatten_cons, hg]
          rfl
      _ = mergeGo ([] ++ g.dropLast) ([g.getLast hgne] ++ gs.flatten) := by
          rw [List.append_assoc]
          exact mergeGo_skip hpre [] ([g.getLast hgne] ++ gs.flatten)
      _ = joinSp (g.dropLast ++ [g.getLast hgne]) :: mergeParas gs.flatten := by
          rw [List.nil_append, List.singleton_append, mergeGo, if_pos hclose]
          rfl
      _ = joinSp g :: gs.map joinSp := by
          rw [hg, ih (fun g' hg' => h g' (List.mem_cons_of_mem g hg'))]
      _ = (g :: gs).map joinSp := rfl

/-- C7 witness: two groups, each ending in a `'.'`-terminated line,
reconstruct to exactly two paragraphs. -/
theorem C7_witness :
    mergeParas ([[lit "Climate goals", lit "were met."],
      [lit "Emissions fell."]] : List (List Str)).flatten =
      ([[lit "Climate goals", lit "were met."],
        [lit "Emissions fell."]] : List (List Str)).map joinSp :=
  C7_paragraph_roundtrip
    [[lit "Climate goals", lit "were met."], [lit "Emissions fell."]] (by decide)
